import Mathlib

/-!
Verification of the photo/video import workflow script (photo_automation.py).

The development shallowly embeds the script's core logic:

* the extension tables PHOTO_EXTS and VIDEO_EXTS,
* extension extraction as performed by pathlib (suffix of a file name),
* the classification booleans computed inside copy_media,
* the destination planner build_dest_folder,
* the copy engine copy_media (a walk over source files writing into a
  destination modelled as an association list from paths to contents),
* a fallible variant copy_mediaE in which the underlying per-file copy
  primitive may raise, mirroring that shutil.copy2 exceptions propagate,
* the volume scanner detect_sd_cards over a model of the directory listing
  performed by glob,
* the deletion step confirm_delete and the orchestrator tail of main.

Paths are lists of components; file contents are strings.
-/

namespace PhotoAutomation

/-- A path is a list of components (no separators inside a component). -/
abbrev FsPath := List String

/-- The destination filesystem state: an association list from absolute
destination paths to file contents.  A real filesystem has at most one file
per path; writing to an existing path overwrites it. -/
abbrev FS := List (FsPath × String)

/-- Photo extension table (photo_automation.py line 29). -/
def PHOTO_EXTS : List String := [".jpg", ".jpeg", ".png", ".tif", ".tiff", ".raw", ".dng"]

/-- Video extension table (photo_automation.py line 30). -/
def VIDEO_EXTS : List String := [".mov", ".mp4", ".avi", ".mkv"]

/-- Index of the last occurrence of a character in a list, counted from the
front; none if the character does not occur. -/
def rfindIdx : List Char → Char → Option Nat
  | [], _ => none
  | c :: cs, t =>
    match rfindIdx cs t with
    | some i => some (i + 1)
    | none => if c = t then some 0 else none

/-- The extension of a file name exactly as pathlib computes Path(name).suffix:
the substring from the last dot on, unless that dot is the first or the last
character, in which case the suffix is empty. -/
def pysuffix (name : String) : String :=
  match rfindIdx name.data '.' with
  | none => ""
  | some i =>
    if 0 < i ∧ i < name.data.length - 1 then String.mk (name.data.drop i) else ""

/-- Lower-casing of a string, character by character (Python str.lower on the
ASCII extensions involved here). -/
def lowerStr (s : String) : String := String.mk (s.data.map Char.toLower)

/-- Python str.strip(): remove whitespace from both ends. -/
def pystrip (s : String) : String :=
  String.mk (((s.data.dropWhile Char.isWhitespace).reverse.dropWhile Char.isWhitespace).reverse)

/-- Whether a name begins with a dot (a hidden name, skipped by glob). -/
def startsDot (s : String) : Bool :=
  match s.data with
  | '.' :: _ => true
  | _ => false

/-- Lower-cased extension, as computed by Path(fname).suffix.lower()
(photo_automation.py line 91). -/
def extOf (fname : String) : String := lowerStr (pysuffix fname)

/-- Membership of the lower-cased extension in PHOTO_EXTS
(photo_automation.py line 92). -/
def is_photo (fname : String) : Bool := decide (extOf fname ∈ PHOTO_EXTS)

/-- Membership of the lower-cased extension in VIDEO_EXTS
(photo_automation.py line 93). -/
def is_video (fname : String) : Bool := decide (extOf fname ∈ VIDEO_EXTS)

/-- The media category of a file, per the classification booleans of
copy_media: a photo extension wins, then a video extension, otherwise the
file is unclassified and never copied. -/
inductive MediaCategory where
  | Photo
  | Video
  | Unclassified
deriving DecidableEq

/-- Classification of a file name by extension lookup. -/
def classify (fname : String) : MediaCategory :=
  if is_photo fname then .Photo
  else if is_video fname then .Video
  else .Unclassified

/-- Python str.replace applied with a single-character pattern " " and
replacement "_": every space character becomes an underscore
(photo_automation.py line 80). -/
def pyReplaceSpace (s : String) : String :=
  String.mk (s.data.map (fun c => if c = ' ' then '_' else c))

/-- The shoot folder name built by build_dest_folder: the f-string joining
date, event and location with underscores, then replace(" ", "_"). -/
def folder_name (date_str event location : String) : String :=
  pyReplaceSpace (date_str ++ "_" ++ event ++ "_" ++ location)

/-- build_dest_folder (photo_automation.py lines 78-81): the destination
folder is ssd_root / folder_name, with no further nesting. -/
def build_dest_folder (ssd_root : FsPath) (date_str event location : String) : FsPath :=
  ssd_root ++ [folder_name date_str event location]

/-- A regular file of the source tree, as delivered by os.walk: the list of
directory components of its location relative to the source root, its file
name, and its contents. -/
structure SrcFile where
  dirs : List String
  fname : String
  content : String
deriving DecidableEq

/-- The path of a source file relative to the source root. -/
def relPath (f : SrcFile) : FsPath := f.dirs ++ [f.fname]

/-- include_photos (photo_automation.py line 86). -/
def include_photos (mode : String) : Bool := mode = "p" ∨ mode = "b"

/-- include_videos (photo_automation.py line 87). -/
def include_videos (mode : String) : Bool := mode = "v" ∨ mode = "b"

/-- The copy condition of photo_automation.py line 95. -/
def eligible (mode : String) (fname : String) : Bool :=
  (is_photo fname && include_photos mode) || (is_video fname && include_videos mode)

/-- The destination path of a copied file (photo_automation.py lines 96-99):
dest / subfolder / relative path, with subfolder "Photos" when the file has a
photo extension and "Video" otherwise. -/
def dest_path (dest : FsPath) (f : SrcFile) : FsPath :=
  dest ++ [if is_photo f.fname then "Photos" else "Video"] ++ f.dirs ++ [f.fname]

/-- Writing a file: overwrite the entry at the path if one exists, else
append a new entry (shutil.copy2 overwrites existing destination files). -/
def fsWrite : FS → FsPath → String → FS
  | [], p, c => [(p, c)]
  | (q, d) :: fs, p, c => if q = p then (q, c) :: fs else (q, d) :: fsWrite fs p c

/-- Reading a file: the content at the first entry with the given path. -/
def lookupFS : FS → FsPath → Option String
  | [], _ => none
  | (q, d) :: fs, p => if q = p then some d else lookupFS fs p

/-- copy_media (photo_automation.py lines 84-102): walk the source files in
order; copy each eligible file to its destination path; skip the rest.  The
destination state is threaded through explicitly. -/
def copy_media : List SrcFile → FsPath → String → FS → FS
  | [], _, _, fs => fs
  | f :: rest, dest, mode, fs =>
    if eligible mode f.fname then
      copy_media rest dest mode (fsWrite fs (dest_path dest f) f.content)
    else
      copy_media rest dest mode fs

/-- copy_media with a fallible copy primitive: files whose relative path lies
in the failing set make shutil.copy2 raise.  The function body has no
exception handler (photo_automation.py lines 84-102), so the exception
propagates: the walk stops and the destination keeps only what was written
before the failure. -/
def copy_mediaE (dest : FsPath) (mode : String) (failing : List FsPath) :
    List SrcFile → FS → Except FS FS
  | [], fs => .ok fs
  | f :: rest, fs =>
    if eligible mode f.fname then
      if relPath f ∈ failing then
        .error fs
      else
        copy_mediaE dest mode failing rest (fsWrite fs (dest_path dest f) f.content)
    else
      copy_mediaE dest mode failing rest fs

/-- An entry of the source volume as enumerated by Path.glob, marked as a
regular file or a directory. -/
structure Entry where
  path : FsPath
  isFile : Bool
  content : String
deriving DecidableEq

/-- The deletion loop of confirm_delete (photo_automation.py lines 156-158):
every item that is a regular file is unlinked; directories are untouched. -/
def delete_files : List Entry → List Entry
  | [] => []
  | e :: es => if e.isFile then delete_files es else e :: delete_files es

/-- confirm_delete (photo_automation.py lines 152-159): the answer is
stripped and lower-cased; on "y" every regular file under the source is
unlinked, otherwise nothing happens. -/
def confirm_delete (ans : String) (entries : List Entry) : List Entry :=
  if lowerStr (pystrip ans) = "y" then delete_files entries else entries

/-- An immediate child of the scanned parent directory (/Volumes), with its
name, whether it is a directory, and its own entries as (name, isDir)
pairs. -/
structure Child where
  name : String
  isDir : Bool
  entries : List (String × Bool)
deriving DecidableEq

/-- Whether glob("/Volumes/*/DCIM") produces a match inside this child: the
child's name must not start with a dot (glob's * skips hidden names), the
child must be a directory for the pattern to descend into it, and it must
contain an entry literally named DCIM — of any type, since glob only tests
existence. -/
def glob_dcim_match (c : Child) : Bool :=
  !(startsDot c.name) && c.isDir && c.entries.any (fun e => e.1 = "DCIM")

/-- detect_sd_cards (photo_automation.py lines 33-40): each glob match
contributes its parent (the child itself), kept when that parent is a
directory. -/
def detect_sd_cards (children : List Child) : List Child :=
  (children.filter glob_dcim_match).filter (fun c => c.isDir)

/-- The data flow of main (photo_automation.py lines 162-193) relevant to the
copy and deletion steps: build the destination folder, copy the media into an
empty destination, and then run confirm_delete on the source volume — with no
check of the copy outcome in between.  Returns the final destination state
and the final source entries. -/
def main_flow (ssd_root : FsPath) (event location date_str mode : String)
    (srcFiles : List SrcFile) (srcEntries : List Entry) (ans : String) :
    FS × List Entry :=
  let dest_root := build_dest_folder ssd_root date_str event location
  let destFs := copy_media srcFiles dest_root mode []
  (destFs, confirm_delete ans srcEntries)

/-- The set of writes a copy_media run performs, in order: destination path
and content of every eligible source file. -/
def writesOf (l : List SrcFile) (dest : FsPath) (mode : String) : List (FsPath × String) :=
  (l.filter (fun f => eligible mode f.fname)).map (fun f => (dest_path dest f, f.content))

/-- Applying a list of writes to a destination state, in order. -/
def applyWrites (w : List (FsPath × String)) (fs : FS) : FS :=
  w.foldl (fun fs x => fsWrite fs x.1 x.2) fs

/-- The paths present in a destination state. -/
def fsKeys (fs : FS) : List FsPath := fs.map Prod.fst

theorem copy_media_eq_applyWrites (l : List SrcFile) (dest : FsPath) (mode : String)
    (fs : FS) : copy_media l dest mode fs = applyWrites (writesOf l dest mode) fs := by
  induction l generalizing fs with
  | nil => rfl
  | cons f rest ih =>
    by_cases h : eligible mode f.fname
    · simp [copy_media, writesOf, applyWrites, h] at ih ⊢
      exact ih _
    · simp [copy_media, writesOf, applyWrites, h] at ih ⊢
      exact ih _

theorem fsKeys_nil : fsKeys ([] : FS) = [] := rfl

theorem fsKeys_cons (q : FsPath) (d : String) (fs : FS) :
    fsKeys ((q, d) :: fs) = q :: fsKeys fs := rfl

theorem fsWrite_cons_hit (fs : FS) (p : FsPath) (c d : String) :
    fsWrite ((p, d) :: fs) p c = (p, c) :: fs := by
  simp [fsWrite]

theorem fsWrite_cons_miss {r p : FsPath} (h : r ≠ p) (fs : FS) (c d : String) :
    fsWrite ((r, d) :: fs) p c = (r, d) :: fsWrite fs p c := by
  simp [fsWrite, h]

theorem mem_fsKeys_fsWrite {q : FsPath} (fs : FS) (p : FsPath) (c : String) :
    q ∈ fsKeys (fsWrite fs p c) ↔ q = p ∨ q ∈ fsKeys fs := by
  induction fs with
  | nil => simp [fsWrite, fsKeys]
  | cons e fs ih =>
    obtain ⟨r, d⟩ := e
    by_cases h : r = p
    · subst h
      rw [fsWrite_cons_hit, fsKeys_cons, fsKeys_cons]
      simp only [List.mem_cons]
      tauto
    · rw [fsWrite_cons_miss h, fsKeys_cons, fsKeys_cons]
      simp only [List.mem_cons, ih]
      tauto

theorem lookupFS_fsWrite_self (fs : FS) (p : FsPath) (c : String) :
    lookupFS (fsWrite fs p c) p = some c := by
  induction fs with
  | nil => simp [fsWrite, lookupFS]
  | cons e fs ih =>
    obtain ⟨r, d⟩ := e
    by_cases h : r = p
    · subst h
      rw [fsWrite_cons_hit]
      simp [lookupFS]
    · rw [fsWrite_cons_miss h]
      simp [lookupFS, h, ih]

theorem lookupFS_fsWrite_ne {q p : FsPath} (h : q ≠ p) (fs : FS) (c : String) :
    lookupFS (fsWrite fs p c) q = lookupFS fs q := by
  induction fs with
  | nil => simp [fsWrite, lookupFS, Ne.symm h]
  | cons e fs ih =>
    obtain ⟨r, d⟩ := e
    by_cases hr : r = p
    · subst hr
      rw [fsWrite_cons_hit]
      simp [lookupFS, Ne.symm h]
    · rw [fsWrite_cons_miss hr]
      simp [lookupFS, ih]

theorem fsWrite_lookup_eq (fs : FS) (p : FsPath) (c : String)
    (h : lookupFS fs p = some c) : fsWrite fs p c = fs := by
  induction fs with
  | nil => simp [lookupFS] at h
  | cons e fs ih =>
    obtain ⟨r, d⟩ := e
    by_cases hr : r = p
    · subst hr
      simp [lookupFS] at h
      rw [fsWrite_cons_hit, h]
    · simp [lookupFS, hr] at h
      rw [fsWrite_cons_miss hr, ih h]

theorem fsWrite_fsWrite_self (fs : FS) (p : FsPath) (c c' : String) :
    fsWrite (fsWrite fs p c) p c' = fsWrite fs p c' := by
  induction fs with
  | nil => simp [fsWrite]
  | cons e fs ih =>
    obtain ⟨r, d⟩ := e
    by_cases hr : r = p
    · subst hr
      rw [fsWrite_cons_hit, fsWrite_cons_hit, fsWrite_cons_hit]
    · rw [fsWrite_cons_miss hr, fsWrite_cons_miss hr, fsWrite_cons_miss hr, ih]

theorem fsWrite_comm {p q : FsPath} (h : p ≠ q) (fs : FS) (c d : String)
    (hp : p ∈ fsKeys fs) :
    fsWrite (fsWrite fs p c) q d = fsWrite (fsWrite fs q d) p c := by
  induction fs with
  | nil => rw [fsKeys_nil] at hp; exact absurd hp (List.not_mem_nil p)
  | cons e fs ih =>
    obtain ⟨r, v⟩ := e
    rw [fsKeys_cons, List.mem_cons] at hp
    by_cases hrp : r = p
    · subst hrp
      rw [fsWrite_cons_hit, fsWrite_cons_miss h, fsWrite_cons_miss h, fsWrite_cons_hit]
    · have hp' : p ∈ fsKeys fs := by
        rcases hp with hp | hp
        · exact absurd hp.symm hrp
        · exact hp
      by_cases hrq : r = q
      · subst hrq
        rw [fsWrite_cons_miss hrp, fsWrite_cons_hit, fsWrite_cons_hit,
          fsWrite_cons_miss hrp]
      · rw [fsWrite_cons_miss hrp, fsWrite_cons_miss hrq, fsWrite_cons_miss hrq,
          fsWrite_cons_miss hrp, ih hp']

theorem applyWrites_cons (p : FsPath) (c : String) (w : List (FsPath × String)) (fs : FS) :
    applyWrites ((p, c) :: w) fs = applyWrites w (fsWrite fs p c) := rfl

theorem mem_fsKeys_applyWrites {p : FsPath} (w : List (FsPath × String)) (fs : FS)
    (h : p ∈ fsKeys fs) : p ∈ fsKeys (applyWrites w fs) := by
  induction w generalizing fs with
  | nil => exact h
  | cons x w ih =>
    obtain ⟨q, d⟩ := x
    rw [applyWrites_cons]
    exact ih _ ((mem_fsKeys_fsWrite _ _ _).mpr (Or.inr h))

theorem lookupFS_applyWrites_not_mem {p : FsPath} (w : List (FsPath × String)) (fs : FS)
    (h : p ∉ fsKeys w) : lookupFS (applyWrites w fs) p = lookupFS fs p := by
  induction w generalizing fs with
  | nil => rfl
  | cons x w ih =>
    obtain ⟨q, d⟩ := x
    rw [fsKeys_cons, List.mem_cons] at h
    push_neg at h
    rw [applyWrites_cons, ih _ h.2, lookupFS_fsWrite_ne h.1]

theorem applyWrites_fsWrite_mem {p : FsPath} (w : List (FsPath × String)) (fs : FS)
    (c : String) (hp : p ∈ fsKeys fs) (hw : p ∈ fsKeys w) :
    applyWrites w (fsWrite fs p c) = applyWrites w fs := by
  induction w generalizing fs with
  | nil => rw [fsKeys_nil] at hw; exact absurd hw (List.not_mem_nil p)
  | cons x w ih =>
    obtain ⟨q, d⟩ := x
    by_cases hq : q = p
    · subst hq
      rw [applyWrites_cons, applyWrites_cons, fsWrite_fsWrite_self]
    · rw [fsKeys_cons, List.mem_cons] at hw
      rcases hw with hw | hw
      · exact absurd hw.symm hq
      · rw [applyWrites_cons, applyWrites_cons, fsWrite_comm (Ne.symm hq) _ _ _ hp]
        exact ih _ ((mem_fsKeys_fsWrite _ _ _).mpr (Or.inr hp)) hw

theorem applyWrites_idem (w : List (FsPath × String)) (fs : FS) :
    applyWrites w (applyWrites w fs) = applyWrites w fs := by
  induction w generalizing fs with
  | nil => rfl
  | cons x w ih =>
    obtain ⟨p, c⟩ := x
    rw [applyWrites_cons, applyWrites_cons]
    by_cases hm : p ∈ fsKeys w
    · have hp : p ∈ fsKeys (applyWrites w (fsWrite fs p c)) :=
        mem_fsKeys_applyWrites _ _ ((mem_fsKeys_fsWrite _ _ _).mpr (Or.inl rfl))
      rw [applyWrites_fsWrite_mem _ _ _ hp hm]
      exact ih _
    · have hl : lookupFS (applyWrites w (fsWrite fs p c)) p = some c := by
        rw [lookupFS_applyWrites_not_mem _ _ hm, lookupFS_fsWrite_self]
      rw [fsWrite_lookup_eq _ _ _ hl]
      exact ih _

theorem fsKeys_fsWrite_nodup (fs : FS) (p : FsPath) (c : String)
    (h : (fsKeys fs).Nodup) : (fsKeys (fsWrite fs p c)).Nodup := by
  induction fs with
  | nil => simp [fsWrite, fsKeys]
  | cons e fs ih =>
    obtain ⟨r, d⟩ := e
    rw [fsKeys_cons, List.nodup_cons] at h
    by_cases hr : r = p
    · subst hr
      rw [fsWrite_cons_hit, fsKeys_cons, List.nodup_cons]
      exact h
    · rw [fsWrite_cons_miss hr, fsKeys_cons, List.nodup_cons]
      refine ⟨fun hmem => ?_, ih h.2⟩
      rcases (mem_fsKeys_fsWrite fs p c).mp hmem with hh | hh
      · exact hr hh
      · exact h.1 hh

theorem fsKeys_applyWrites_nodup (w : List (FsPath × String)) (fs : FS)
    (h : (fsKeys fs).Nodup) : (fsKeys (applyWrites w fs)).Nodup := by
  induction w generalizing fs with
  | nil => exact h
  | cons x w ih =>
    obtain ⟨q, d⟩ := x
    rw [applyWrites_cons]
    exact ih _ (fsKeys_fsWrite_nodup _ _ _ h)

example : pysuffix "IMG_0001.JPG" = ".JPG" := by decide
example : pysuffix ".jpg" = "" := by decide
example : pysuffix "noext" = "" := by decide
example : pysuffix "a..jpg" = ".jpg" := by decide
example : pysuffix "a." = "" := by decide
example : classify "IMG_0001.JPG" = .Photo := by decide
example : classify "MOV_0002.MP4" = .Video := by decide
example : classify "notes.txt" = .Unclassified := by decide
example : build_dest_folder ["root"] "2024-05-01" "Wedding" "Chicago"
    = ["root", "2024-05-01_Wedding_Chicago"] := by decide

example :
    copy_media [⟨["DCIM", "100ABC"], "IMG_0001.JPG", "pb"⟩,
                ⟨["DCIM", "100ABC"], "MOV_0002.MP4", "vb"⟩]
      (build_dest_folder ["root"] "2024-05-01" "Wedding" "Chicago") "b" []
    = [(["root", "2024-05-01_Wedding_Chicago", "Photos", "DCIM", "100ABC", "IMG_0001.JPG"], "pb"),
       (["root", "2024-05-01_Wedding_Chicago", "Video", "DCIM", "100ABC", "MOV_0002.MP4"], "vb")] := by
  decide

example :
    copy_media [⟨[], "a.mp4", "v"⟩] ["d"] "p" [] = [] := by decide

example :
    copy_mediaE ["d"] "b" [["A.JPG"]]
      [⟨[], "A.JPG", "a"⟩, ⟨[], "B.JPG", "b"⟩] [] = .error [] := rfl

example :
    confirm_delete "  Y " [⟨["DCIM"], false, ""⟩, ⟨["DCIM", "f.jpg"], true, "c"⟩]
    = [⟨["DCIM"], false, ""⟩] := by decide

example :
    detect_sd_cards [⟨"card", true, [("DCIM", false)]⟩] = [⟨"card", true, [("DCIM", false)]⟩] := by
  decide

theorem exts_disjoint (e : String) : ¬(e ∈ PHOTO_EXTS ∧ e ∈ VIDEO_EXTS) := by
  intro ⟨h1, h2⟩
  simp only [PHOTO_EXTS, List.mem_cons, List.not_mem_nil, or_false] at h1
  rcases h1 with rfl | rfl | rfl | rfl | rfl | rfl | rfl <;> revert h2 <;> decide

theorem photo_not_video {s : String} (h : is_photo s = true) : is_video s = false := by
  unfold is_photo at h
  have hm : extOf s ∈ PHOTO_EXTS := of_decide_eq_true h
  have hv : extOf s ∉ VIDEO_EXTS := fun hv => exts_disjoint _ ⟨hm, hv⟩
  unfold is_video
  exact decide_eq_false hv

theorem rfindIdx_eq_none {t : Char} {l : List Char} (h : t ∉ l) : rfindIdx l t = none := by
  induction l with
  | nil => rfl
  | cons c cs ih =>
    rw [List.mem_cons] at h
    push_neg at h
    simp [rfindIdx, ih h.2, Ne.symm h.1]

/-- Claim C4: classification is total (every file name gets exactly one of
the three categories), case-insensitive (two file names whose lower-cased
extensions agree receive the same category), and the photo and video
extension sets are disjoint, so every extension maps to exactly one
category. -/
theorem classify_total_ci_disjoint :
    (∀ f g : String, lowerStr (pysuffix f) = lowerStr (pysuffix g) → classify f = classify g)
    ∧ (∀ e : String, ¬(e ∈ PHOTO_EXTS ∧ e ∈ VIDEO_EXTS))
    ∧ (∀ f : String,
        classify f = .Photo ∨ classify f = .Video ∨ classify f = .Unclassified) := by
  refine ⟨?_, exts_disjoint, ?_⟩
  · intro f g h
    have he : extOf f = extOf g := h
    simp only [classify, is_photo, is_video, he]
  · intro f
    unfold classify
    cases hb : is_photo f <;> cases hv : is_video f <;> simp

/-- Witness for C4: the sample inputs IMG_0001.JPG and img_0001.jpg have
equal lower-cased extensions and receive the same category; the extension
.jpg is not in both tables. -/
theorem classify_total_ci_disjoint_w :
    classify "IMG_0001.JPG" = classify "img_0001.jpg"
    ∧ ¬(".jpg" ∈ PHOTO_EXTS ∧ ".jpg" ∈ VIDEO_EXTS) :=
  ⟨classify_total_ci_disjoint.1 "IMG_0001.JPG" "img_0001.jpg" (by decide),
   classify_total_ci_disjoint.2.1 ".jpg"⟩

/-- Claim C9: a file whose name starts with a dot and contains no further dot
has an empty extracted extension, is classified Unclassified, and is never
copied by copy_media in any mode. -/
theorem dotfile_never_copied (fname : String)
    (h1 : fname.data.head? = some '.') (h2 : '.' ∉ fname.data.tail) :
    pysuffix fname = "" ∧ classify fname = .Unclassified ∧
      ∀ (dirs : List String) (content : String) (dest : FsPath) (mode : String) (fs : FS),
        copy_media [⟨dirs, fname, content⟩] dest mode fs = fs := by
  obtain ⟨c, cs, hd, hc⟩ : ∃ c cs, fname.data = c :: cs ∧ c = '.' := by
    cases hd : fname.data with
    | nil => rw [hd] at h1; exact absurd h1 (by simp)
    | cons c cs =>
      rw [hd] at h1
      simp only [List.head?_cons, Option.some.injEq] at h1
      exact ⟨c, cs, rfl, h1⟩
  subst hc
  rw [hd] at h2
  simp only [List.tail_cons] at h2
  have hfind : rfindIdx fname.data '.' = some 0 := by
    rw [hd]
    simp [rfindIdx, rfindIdx_eq_none h2]
  have hsuf : pysuffix fname = "" := by
    unfold pysuffix
    rw [hfind]
    simp
  have hp : is_photo fname = false := by
    unfold is_photo extOf
    rw [hsuf]
    decide
  have hv : is_video fname = false := by
    unfold is_video extOf
    rw [hsuf]
    decide
  refine ⟨hsuf, ?_, ?_⟩
  · unfold classify
    rw [hp, hv]
    simp
  · intro dirs content dest mode fs
    simp [copy_media, eligible, hp, hv]

/-- Witness for C9 at the concrete file name .jpg. -/
theorem dotfile_never_copied_w :
    pysuffix ".jpg" = "" ∧ classify ".jpg" = .Unclassified ∧
      copy_media [⟨["DCIM"], ".jpg", "x"⟩] ["d"] "b" [] = [] := by
  obtain ⟨a, b, c⟩ := dotfile_never_copied ".jpg" (by decide) (by decide)
  exact ⟨a, b, c ["DCIM"] "x" ["d"] "b" []⟩

/-- Claim C5: running copy_media a second time with the same source files,
destination and mode on the destination state produced by the first run
leaves that state unchanged (the final file set is identical and
content-equal), and no duplicate destination files arise: a duplicate-free
destination stays duplicate-free. -/
theorem copy_media_idempotent (l : List SrcFile) (dest : FsPath) (mode : String) (fs : FS) :
    copy_media l dest mode (copy_media l dest mode fs) = copy_media l dest mode fs
    ∧ ((fsKeys fs).Nodup → (fsKeys (copy_media l dest mode fs)).Nodup) := by
  constructor
  · rw [copy_media_eq_applyWrites, copy_media_eq_applyWrites]
    exact applyWrites_idem _ _
  · intro h
    rw [copy_media_eq_applyWrites]
    exact fsKeys_applyWrites_nodup _ _ h

/-- Witness for C5 on a concrete one-file source tree and empty
destination. -/
theorem copy_media_idempotent_w :
    copy_media [⟨["DCIM"], "A.JPG", "a"⟩] ["d"] "b"
        (copy_media [⟨["DCIM"], "A.JPG", "a"⟩] ["d"] "b" [])
      = copy_media [⟨["DCIM"], "A.JPG", "a"⟩] ["d"] "b" []
    ∧ (fsKeys (copy_media [⟨["DCIM"], "A.JPG", "a"⟩] ["d"] "b" [])).Nodup :=
  ⟨(copy_media_idempotent [⟨["DCIM"], "A.JPG", "a"⟩] ["d"] "b" []).1,
   (copy_media_idempotent [⟨["DCIM"], "A.JPG", "a"⟩] ["d"] "b" []).2 (by decide)⟩

/-- Claim C6: with mode photos-only ("p"), no file whose extension is in the
video extension set appears anywhere under the destination: any path present
after the run whose final component has a video extension must already have
been present before the run. -/
theorem photos_only_no_video (l : List SrcFile) (dest : FsPath) (fs : FS) (p : FsPath)
    (hp : p ∈ fsKeys (copy_media l dest "p" fs)) (hnew : p ∉ fsKeys fs) :
    is_video (p.getLast?.getD "") = false := by
  induction l generalizing fs with
  | nil => exact absurd hp hnew
  | cons f rest ih =>
    by_cases he : eligible "p" f.fname = true
    · rw [show copy_media (f :: rest) dest "p" fs
          = copy_media rest dest "p" (fsWrite fs (dest_path dest f) f.content) from by
          simp [copy_media, he]] at hp
      by_cases hm : p ∈ fsKeys (fsWrite fs (dest_path dest f) f.content)
      · rcases (mem_fsKeys_fsWrite _ _ _).mp hm with hh | hh
        · subst hh
          have hph : is_photo f.fname = true := by
            unfold eligible at he
            rw [show include_videos "p" = false from by decide] at he
            simp at he
            exact he.1
          have hl : (dest_path dest f).getLast? = some f.fname := by
            unfold dest_path
            rw [List.getLast?_concat]
          rw [hl]
          exact photo_not_video hph
        · exact absurd hh hnew
      · exact ih _ hp hm
    · rw [show copy_media (f :: rest) dest "p" fs = copy_media rest dest "p" fs from by
        simp [copy_media, he]] at hp
      exact ih _ hp hnew

/-- Witness for C6: the one destination path created by a photos-only run on
a one-photo source has no video extension. -/
theorem photos_only_no_video_w :
    is_video ((["d", "Photos", "A.JPG"] : FsPath).getLast?.getD "") = false :=
  photos_only_no_video [⟨[], "A.JPG", "a"⟩] ["d"] [] ["d", "Photos", "A.JPG"]
    (by decide) (by decide)

/-- Claim C3 counterexample: on the example scenario (event Wedding, location
Chicago, date 2024-05-01, mode both, files DCIM/100ABC/IMG_0001.JPG and
DCIM/100ABC/MOV_0002.MP4), the destination paths produced by the code have no
year segment: the claimed year-nested photo path is not among the produced
paths. -/
theorem example_scenario_year_cex :
    copy_media [⟨["DCIM", "100ABC"], "IMG_0001.JPG", "p1"⟩,
                ⟨["DCIM", "100ABC"], "MOV_0002.MP4", "v1"⟩]
      (build_dest_folder ["root"] "2024-05-01" "Wedding" "Chicago") "b" []
    = [(["root", "2024-05-01_Wedding_Chicago", "Photos", "DCIM", "100ABC", "IMG_0001.JPG"], "p1"),
       (["root", "2024-05-01_Wedding_Chicago", "Video", "DCIM", "100ABC", "MOV_0002.MP4"], "v1")]
    ∧ ["root", "2024", "2024-05-01_Wedding_Chicago", "Photos", "DCIM", "100ABC", "IMG_0001.JPG"]
        ∉ fsKeys (copy_media [⟨["DCIM", "100ABC"], "IMG_0001.JPG", "p1"⟩,
            ⟨["DCIM", "100ABC"], "MOV_0002.MP4", "v1"⟩]
          (build_dest_folder ["root"] "2024-05-01" "Wedding" "Chicago") "b" []) := by
  constructor
  · rfl
  · decide

/-- Claim C3 (amended): on the example scenario the produced destination
paths are root/2024-05-01_Wedding_Chicago/Photos/DCIM/100ABC/IMG_0001.JPG and
root/2024-05-01_Wedding_Chicago/Video/DCIM/100ABC/MOV_0002.MP4 — the shoot
folder sits directly under the root, with no year segment — and both copies
are content-identical to the source files. -/
theorem example_scenario_flat :
    fsKeys (copy_media [⟨["DCIM", "100ABC"], "IMG_0001.JPG", "p1"⟩,
        ⟨["DCIM", "100ABC"], "MOV_0002.MP4", "v1"⟩]
      (build_dest_folder ["root"] "2024-05-01" "Wedding" "Chicago") "b" [])
    = [["root", "2024-05-01_Wedding_Chicago", "Photos", "DCIM", "100ABC", "IMG_0001.JPG"],
       ["root", "2024-05-01_Wedding_Chicago", "Video", "DCIM", "100ABC", "MOV_0002.MP4"]]
    ∧ lookupFS (copy_media [⟨["DCIM", "100ABC"], "IMG_0001.JPG", "p1"⟩,
          ⟨["DCIM", "100ABC"], "MOV_0002.MP4", "v1"⟩]
        (build_dest_folder ["root"] "2024-05-01" "Wedding" "Chicago") "b" [])
      ["root", "2024-05-01_Wedding_Chicago", "Photos", "DCIM", "100ABC", "IMG_0001.JPG"]
      = some "p1"
    ∧ lookupFS (copy_media [⟨["DCIM", "100ABC"], "IMG_0001.JPG", "p1"⟩,
          ⟨["DCIM", "100ABC"], "MOV_0002.MP4", "v1"⟩]
        (build_dest_folder ["root"] "2024-05-01" "Wedding" "Chicago") "b" [])
      ["root", "2024-05-01_Wedding_Chicago", "Video", "DCIM", "100ABC", "MOV_0002.MP4"]
      = some "v1" := by
  refine ⟨rfl, rfl, rfl⟩

/-- Claim C8 counterexample: a tab character in the event name survives into
the folder name — the code replaces only the space character, not every
whitespace character. -/
theorem folder_name_tab_cex :
    build_dest_folder ["r"] "2024-01-02" "A\tB" "Loc" = ["r", "2024-01-02_A\tB_Loc"]
    ∧ Char.isWhitespace '\t' = true
    ∧ '\t' ∈ (folder_name "2024-01-02" "A\tB" "Loc").data := by
  refine ⟨rfl, rfl, ?_⟩
  decide

/-- Claim C8 (amended): the destination folder name is the date, event and
location joined with the underscore separator, with every occurrence of the
space character (and only the space character — other whitespace such as tabs
is left unchanged) replaced by an underscore. -/
theorem build_dest_folder_space_underscore (ssd_root : FsPath) (d e l : String) :
    build_dest_folder ssd_root d e l = ssd_root ++ [folder_name d e l]
    ∧ ' ' ∉ (folder_name d e l).data
    ∧ (∀ c : Char, c ≠ ' ' → c ≠ '_' →
        (c ∈ (folder_name d e l).data ↔ c ∈ (d ++ "_" ++ e ++ "_" ++ l).data)) := by
  have hdata : (folder_name d e l).data
      = ((d ++ "_" ++ e ++ "_" ++ l).data).map (fun c => if c = ' ' then '_' else c) := rfl
  refine ⟨rfl, ?_, ?_⟩
  · intro hmem
    rw [hdata] at hmem
    rcases List.mem_map.mp hmem with ⟨a, _, ha⟩
    by_cases h : a = ' '
    · rw [if_pos h] at ha
      exact absurd ha (by decide)
    · rw [if_neg h] at ha
      exact h ha
  · intro c hc1 hc2
    rw [hdata]
    constructor
    · intro hmem
      rcases List.mem_map.mp hmem with ⟨a, hain, ha⟩
      by_cases h : a = ' '
      · rw [if_pos h] at ha
        exact absurd ha.symm hc2
      · rw [if_neg h] at ha
        exact ha ▸ hain
    · intro hmem
      exact List.mem_map.mpr ⟨c, hmem, if_neg hc1⟩

/-- Witness for C8 (amended): a tab is neither a space nor an underscore, and
it appears in the folder name exactly because it appears in the joined
metadata string. -/
theorem build_dest_folder_space_underscore_w :
    '\t' ∈ (folder_name "2024-01-02" "A\tB" "Loc").data ↔
      '\t' ∈ ("2024-01-02" ++ "_" ++ "A\tB" ++ "_" ++ "Loc").data :=
  (build_dest_folder_space_underscore ["r"] "2024-01-02" "A\tB" "Loc").2.2 '\t'
    (by decide) (by decide)

/-- Claim C7 counterexample: a child directory whose DCIM entry is a regular
file (not a directory) is still emitted by detect_sd_cards, although the
claim says an entry named DCIM that is not a directory does not qualify. -/
theorem detect_sd_cards_dcim_file_cex :
    detect_sd_cards [⟨"card", true, [("DCIM", false)]⟩]
      = [⟨"card", true, [("DCIM", false)]⟩]
    ∧ ∀ e ∈ (⟨"card", true, [("DCIM", false)]⟩ : Child).entries,
        ¬(e.1 = "DCIM" ∧ e.2 = true) := by
  refine ⟨rfl, ?_⟩
  decide

/-- Claim C7 (amended): a child of the scanned parent directory is emitted as
a source volume if and only if it is itself a directory, its name does not
start with a dot (glob's wildcard skips hidden names), and it contains an
entry named DCIM — whether or not that entry is a directory. -/
theorem detect_sd_cards_spec (children : List Child) (c : Child) :
    c ∈ detect_sd_cards children ↔
      c ∈ children ∧ c.isDir = true ∧ startsDot c.name = false
        ∧ (∃ e ∈ c.entries, e.1 = "DCIM") := by
  unfold detect_sd_cards glob_dcim_match
  simp only [List.mem_filter, Bool.and_eq_true, Bool.not_eq_true',
    List.any_eq_true, decide_eq_true_eq]
  tauto

/-- Witness for C7 (amended): a non-hidden directory containing a DCIM
subdirectory is emitted. -/
theorem detect_sd_cards_spec_w :
    (⟨"card", true, [("DCIM", true)]⟩ : Child)
      ∈ detect_sd_cards [⟨"card", true, [("DCIM", true)]⟩] :=
  (detect_sd_cards_spec [⟨"card", true, [("DCIM", true)]⟩]
    ⟨"card", true, [("DCIM", true)]⟩).mpr (by decide)

theorem copy_mediaE_ok (dest : FsPath) (mode : String) (failing : List FsPath)
    (l : List SrcFile) (fs : FS)
    (h : ∀ g ∈ l, eligible mode g.fname = true → relPath g ∉ failing) :
    copy_mediaE dest mode failing l fs = .ok (copy_media l dest mode fs) := by
  induction l generalizing fs with
  | nil => rfl
  | cons f rest ih =>
    by_cases he : eligible mode f.fname = true
    · have hnf : relPath f ∉ failing := h f (List.mem_cons_self _ _) he
      rw [show copy_mediaE dest mode failing (f :: rest) fs
          = copy_mediaE dest mode failing rest (fsWrite fs (dest_path dest f) f.content) from by
          simp [copy_mediaE, he, hnf]]
      rw [show copy_media (f :: rest) dest mode fs
          = copy_media rest dest mode (fsWrite fs (dest_path dest f) f.content) from by
          simp [copy_media, he]]
      exact ih _ (fun g hg => h g (List.mem_cons_of_mem _ hg))
    · rw [show copy_mediaE dest mode failing (f :: rest) fs
          = copy_mediaE dest mode failing rest fs from by simp [copy_mediaE, he]]
      rw [show copy_media (f :: rest) dest mode fs = copy_media rest dest mode fs from by
        simp [copy_media, he]]
      exact ih _ (fun g hg => h g (List.mem_cons_of_mem _ hg))

/-- Claim C1 counterexample: with two eligible files where copying the first
one fails, copy_media propagates the exception: the run ends in the error
state, the second (eligible) file is never copied, and no summary of
succeeded/skipped/failed counts exists anywhere in the code. -/
theorem copy_media_failure_cex :
    copy_mediaE ["d"] "b" [["DCIM", "A.JPG"]]
      [⟨["DCIM"], "A.JPG", "a"⟩, ⟨["DCIM"], "B.JPG", "b"⟩] [] = .error []
    ∧ eligible "b" "B.JPG" = true := by
  refine ⟨rfl, ?_⟩
  decide

/-- Claim C1 (amended): a per-file copy failure aborts the whole walk: if
every eligible file before f copies successfully, f is eligible and its copy
raises, then copy_media stops at f with the exception — the destination holds
exactly the files copied before f, the files after f are never visited, and
no failure record or summary is produced. -/
theorem copy_media_failure_aborts (dest : FsPath) (mode : String) (failing : List FsPath)
    (pre : List SrcFile) (f : SrcFile) (post : List SrcFile) (fs : FS)
    (hpre : ∀ g ∈ pre, eligible mode g.fname = true → relPath g ∉ failing)
    (hf : eligible mode f.fname = true) (hfail : relPath f ∈ failing) :
    copy_mediaE dest mode failing (pre ++ f :: post) fs
      = .error (copy_media pre dest mode fs) := by
  induction pre generalizing fs with
  | nil =>
    simp only [List.nil_append]
    rw [show copy_mediaE dest mode failing (f :: post) fs = .error fs from by
      simp [copy_mediaE, hf, hfail]]
    rfl
  | cons g pre ih =>
    have hg := hpre g (List.mem_cons_self _ _)
    by_cases he : eligible mode g.fname = true
    · have hnf := hg he
      rw [List.cons_append]
      rw [show copy_mediaE dest mode failing (g :: (pre ++ f :: post)) fs
          = copy_mediaE dest mode failing (pre ++ f :: post)
              (fsWrite fs (dest_path dest g) g.content) from by
          simp [copy_mediaE, he, hnf]]
      rw [show copy_media (g :: pre) dest mode fs
          = copy_media pre dest mode (fsWrite fs (dest_path dest g) g.content) from by
          simp [copy_media, he]]
      exact ih _ (fun x hx => hpre x (List.mem_cons_of_mem _ hx))
    · rw [List.cons_append]
      rw [show copy_mediaE dest mode failing (g :: (pre ++ f :: post)) fs
          = copy_mediaE dest mode failing (pre ++ f :: post) fs from by
          simp [copy_mediaE, he]]
      rw [show copy_media (g :: pre) dest mode fs = copy_media pre dest mode fs from by
        simp [copy_media, he]]
      exact ih _ (fun x hx => hpre x (List.mem_cons_of_mem _ hx))

/-- Witness for C1 (amended): one successful copy, then a failing eligible
file, then a further eligible file; the run errors out holding only the first
file. -/
theorem copy_media_failure_aborts_w :
    copy_mediaE ["d"] "b" [["B.MP4"]]
      ([⟨[], "A.JPG", "a"⟩] ++ ⟨[], "B.MP4", "b"⟩ :: [⟨[], "C.JPG", "c"⟩]) []
      = .error (copy_media [⟨[], "A.JPG", "a"⟩] ["d"] "b" []) :=
  copy_media_failure_aborts ["d"] "b" [["B.MP4"]] [⟨[], "A.JPG", "a"⟩]
    ⟨[], "B.MP4", "b"⟩ [⟨[], "C.JPG", "c"⟩] [] (by decide) (by decide) (by decide)

theorem mem_delete_files {e : Entry} :
    ∀ entries : List Entry, e ∈ delete_files entries → e ∈ entries ∧ e.isFile = false := by
  intro entries
  induction entries with
  | nil => intro h; exact absurd h (List.not_mem_nil e)
  | cons x es ih =>
    intro h
    by_cases hx : x.isFile = true
    · rw [show delete_files (x :: es) = delete_files es from by simp [delete_files, hx]] at h
      obtain ⟨h1, h2⟩ := ih h
      exact ⟨List.mem_cons_of_mem _ h1, h2⟩
    · rw [show delete_files (x :: es) = x :: delete_files es from by
        simp [delete_files, hx]] at h
      rcases List.mem_cons.mp h with rfl | h
      · exact ⟨List.mem_cons_self _ _, Bool.eq_false_iff.mpr hx⟩
      · obtain ⟨h1, h2⟩ := ih h
        exact ⟨List.mem_cons_of_mem _ h1, h2⟩

theorem dirs_mem_delete_files {e : Entry} (he : e.isFile = false) :
    ∀ entries : List Entry, e ∈ entries → e ∈ delete_files entries := by
  intro entries
  induction entries with
  | nil => intro h; exact absurd h (List.not_mem_nil e)
  | cons x es ih =>
    intro h
    rcases List.mem_cons.mp h with rfl | h
    · rw [show delete_files (e :: es) = e :: delete_files es from by
        simp [delete_files, he]]
      exact List.mem_cons_self _ _
    · by_cases hx : x.isFile = true
      · rw [show delete_files (x :: es) = delete_files es from by simp [delete_files, hx]]
        exact ih h
      · rw [show delete_files (x :: es) = x :: delete_files es from by
          simp [delete_files, hx]]
        exact List.mem_cons_of_mem _ (ih h)

/-- Claim C2 counterexample: a run whose copy phase succeeds for zero files
(the only source file is not eligible, so the destination stays empty) still
deletes the source files when the user answers y: deletion is not guarded by
any post-copy success check. -/
theorem delete_without_success_cex :
    main_flow ["r"] "E" "L" "2024-01-01" "b"
      [⟨[], "notes.txt", "x"⟩]
      [⟨["DCIM"], false, ""⟩, ⟨["DCIM", "f.jpg"], true, "c"⟩] "y"
    = ([], [⟨["DCIM"], false, ""⟩]) := by
  rfl

/-- Claim C2 (amended): the source-deletion step is guarded by user
confirmation alone: the deletion outcome is completely independent of the
copy phase (mode and source files), and whenever the stripped, lower-cased
answer is y every regular file under the source volume is deleted — even if
the copy phase succeeded for zero files. -/
theorem deletion_unconditional (ssd_root : FsPath)
    (event location date_str mode mode' : String)
    (srcFiles srcFiles' : List SrcFile) (srcEntries : List Entry) (ans : String) :
    (main_flow ssd_root event location date_str mode srcFiles srcEntries ans).2
      = (main_flow ssd_root event location date_str mode' srcFiles' srcEntries ans).2
    ∧ (lowerStr (pystrip ans) = "y" →
        ∀ e ∈ (main_flow ssd_root event location date_str mode srcFiles srcEntries ans).2,
          e.isFile = false) := by
  constructor
  · rfl
  · intro hy e he
    unfold main_flow confirm_delete at he
    rw [if_pos hy] at he
    exact (mem_delete_files srcEntries he).2

/-- Witness for C2 (amended): with an empty eligible-copy outcome and answer
y, the surviving source entry is not a regular file. -/
theorem deletion_unconditional_w :
    (⟨["DCIM"], false, ""⟩ : Entry).isFile = false :=
  (deletion_unconditional ["r"] "E" "L" "d" "b" "p" [] [⟨[], "A.JPG", "a"⟩]
    [⟨["DCIM"], false, ""⟩] "y").2 (by decide) ⟨["DCIM"], false, ""⟩ (by decide)

/-- Claim C10: when the user confirms deletion, only regular files under the
source volume are removed: every directory entry (including DCIM and its
subfolders) still exists afterwards, anything that disappeared was a regular
file, and nothing new appears. -/
theorem confirm_delete_only_files (ans : String) (entries : List Entry)
    (hy : lowerStr (pystrip ans) = "y") :
    (∀ e ∈ entries, e.isFile = false → e ∈ confirm_delete ans entries)
    ∧ (∀ e ∈ entries, e ∉ confirm_delete ans entries → e.isFile = true)
    ∧ (∀ e ∈ confirm_delete ans entries, e ∈ entries) := by
  unfold confirm_delete
  rw [if_pos hy]
  refine ⟨?_, ?_, ?_⟩
  · intro e he hf
    exact dirs_mem_delete_files hf entries he
  · intro e he hne
    by_cases hf : e.isFile = true
    · exact hf
    · exact absurd (dirs_mem_delete_files (Bool.eq_false_iff.mpr hf) entries he) hne
  · intro e he
    exact (mem_delete_files entries he).1

/-- Witness for C10: the DCIM directory entry survives a confirmed
deletion. -/
theorem confirm_delete_only_files_w :
    (⟨["DCIM"], false, ""⟩ : Entry)
      ∈ confirm_delete "y" [⟨["DCIM"], false, ""⟩, ⟨["DCIM", "a.jpg"], true, "c"⟩] :=
  (confirm_delete_only_files "y" [⟨["DCIM"], false, ""⟩, ⟨["DCIM", "a.jpg"], true, "c"⟩]
    (by decide)).1 ⟨["DCIM"], false, ""⟩ (by decide) (by decide)

end PhotoAutomation
